import Mathlib

/-!
Verification of the file synchronization and orphan-reconciliation engine of
`repo-files-sync` (`src/helpers.ts`, `src/input.ts`).

The embedding models a working tree as a finite association list from
root-relative, forward-slash, canonical (no trailing slash) paths to file
contents.  A path is a directory of a tree when some file lives strictly
below it.  Single-file rules place the file at relative path `""` on both
sides.  The filter receives the very path string the caller passes
(`path.join(src, file)` for directory entries, the rule source itself for
single files) and recomputes the relative path exactly as the source does;
the process working directory, an implicit input of `path.resolve` in the
source, is an explicit `cwd` parameter of the model.
-/

namespace RepoFilesSync

/-! ### String helpers

Structural (kernel-reducible) versions of the JavaScript string operations
the source uses, defined over the character list of a `String`. -/

/-- `s.startsWith(pre)`. -/
def strStartsWith (s pre : String) : Bool := pre.toList.isPrefixOf s.toList

/-- `s.endsWith(suf)`. -/
def strEndsWith (s suf : String) : Bool :=
  suf.toList.reverse.isPrefixOf s.toList.reverse

/-- `s.slice(n)` on a string: drop the first `n` characters. -/
def strDrop (s : String) (n : Nat) : String := String.mk (s.toList.drop n)

/-- Character count of a string. -/
def strLength (s : String) : Nat := s.toList.length

/-- Whitespace for the purposes of `String.prototype.trim`. -/
def isJsSpace (c : Char) : Bool :=
  c == ' ' || c == '\t' || c == '\n' || c == '\r' || c == '\x0b' || c == '\x0c'

/-- `s.trim()`. -/
def strTrim (s : String) : String :=
  String.mk (((s.toList.dropWhile isJsSpace).reverse.dropWhile isJsSpace).reverse)

/-- Drops all trailing occurrences of character `c` (the regex `/c+$/`). -/
def strDropTrailing (s : String) (c : Char) : String :=
  String.mk ((s.toList.reverse.dropWhile (· == c)).reverse)

/-- Splitting accumulator for `splitOnSlash`. -/
def splitSlashGo : List Char → List Char → List String
  | [], acc => [String.mk acc.reverse]
  | '/' :: rest, acc => String.mk acc.reverse :: splitSlashGo rest []
  | c :: rest, acc => splitSlashGo rest (c :: acc)

/-- `s.split('/')`: always non-empty, `"" ↦ [""]`. -/
def splitOnSlash (s : String) : List String := splitSlashGo s.toList []

/-- A working tree: a finite list of (relative forward-slash path, content)
pairs.  Models the portion of the filesystem below one root. -/
abbrev FS := List (String × String)

/-- Content of the file at path `p`, if a file entry exists there. -/
def lookupFile (fs : FS) (p : String) : Option String :=
  match fs.find? (fun e => e.1 == p) with
  | some e => some e.2
  | none => none

/-- The list of file paths of a tree. -/
def pathsOf (fs : FS) : List String := fs.map (·.1)

/-- Remove the file entry at path `p` (models `fs.remove` on a file). -/
def removeFile (fs : FS) (p : String) : FS :=
  fs.filter (fun e => !(e.1 == p))

/-- Create or overwrite the file at path `p` with content `c`
(models `fs.outputFile` / `fs.copyFile` with implicit `ensureDir`). -/
def setFile (fs : FS) (p : String) (c : String) : FS :=
  (p, c) :: removeFile fs p

/-- `p` names a directory of the tree: some file lives strictly below it. -/
def isDirIn (fs : FS) (p : String) : Bool :=
  fs.any (fun e => strStartsWith e.1 (p ++ "/"))

/-- Models `fs.existsSync` / `fs.pathExists`: the path is a file or a
directory of the tree. -/
def pathExistsIn (fs : FS) (p : String) : Bool :=
  fs.any (fun e => e.1 == p) || isDirIn fs p

/-- Models `fs.lstatSync(p).isDirectory()`: on a real filesystem a path
holds a single inode, so a path that is a file entry is not a directory. -/
def lstatIsDir (fs : FS) (p : String) : Bool :=
  (lookupFile fs p).isNone && isDirIn fs p

/-- `relativePath.split(sep).some(part => part.startsWith('.'))` from
`readFilesRecursive` (helpers.ts lines 31-32). -/
def hasHiddenComponent (p : String) : Bool :=
  (splitOnSlash p).any (fun part => strStartsWith part ".")

/-- `readFilesRecursive(dir, includeHidden)` (helpers.ts lines 16-42):
all file paths of the tree, relative and forward-slash normalised; when
`includeHidden` is false, paths with a component starting with `.` are
skipped. -/
def readFilesRecursive (tree : FS) (includeHidden : Bool) : List String :=
  (pathsOf tree).filter (fun p => includeHidden || !(hasHiddenComponent p))

/-! ### Glob matching

Modelled from the spec: glob compilation is delegated to the external
`minimatch` library (helpers.ts line 204, `new Minimatch(pattern, { dot:
false })`), whose code is not part of this repository.  The spec (§4.1)
fixes its contract: standard shell-glob semantics (`*`, `**`, `?`,
character classes) with dotfiles not matched by wildcards unless the
pattern explicitly starts with a dot segment. -/

/-- One item of a character class: a single character or a range. -/
inductive ClsItem where
  | single (c : Char)
  | range (lo hi : Char)
deriving Repr, DecidableEq

/-- Whether a character matches one class item. -/
def clsItemMatch (c : Char) : ClsItem → Bool
  | .single x => c == x
  | .range lo hi => lo ≤ c && c ≤ hi

/-- One token of a compiled glob segment. -/
inductive GlobTok where
  | lit (c : Char)
  | anyChar
  | anyStr
  | cls (neg : Bool) (items : List ClsItem)
deriving Repr, DecidableEq

/-- Reads the items of a character class up to the closing `]`.  Returns
`none` when the class is unterminated (the `[` is then taken literally). -/
def readClsItems : List Char → List ClsItem → Option (List ClsItem × List Char)
  | [], _ => none
  | ']' :: rest, acc => some (acc.reverse, rest)
  | lo :: '-' :: hi :: rest, acc =>
    if hi == ']' then some ((ClsItem.single '-' :: ClsItem.single lo :: acc).reverse, rest)
    else readClsItems rest (.range lo hi :: acc)
  | c :: rest, acc => readClsItems rest (.single c :: acc)

/-- Reads a character class after its opening `[`, handling a leading
negation marker (`!` or `^`). -/
def readCls (cs : List Char) : Option (Bool × List ClsItem × List Char) :=
  match cs with
  | '!' :: rest => (readClsItems rest []).map (fun r => (true, r.1, r.2))
  | '^' :: rest => (readClsItems rest []).map (fun r => (true, r.1, r.2))
  | _ => (readClsItems cs []).map (fun r => (false, r.1, r.2))

/-- Tokenises one glob segment.  Fuelled by the input length: every step
consumes at least one character, so the fuel never runs out on the initial
call of `parseSegChars`. -/
def parseSegGo : Nat → List Char → List GlobTok
  | 0, _ => []
  | _ + 1, [] => []
  | fuel + 1, '*' :: rest => .anyStr :: parseSegGo fuel rest
  | fuel + 1, '?' :: rest => .anyChar :: parseSegGo fuel rest
  | fuel + 1, '[' :: rest =>
    match readCls rest with
    | some (neg, items, rem) => .cls neg items :: parseSegGo fuel rem
    | none => .lit '[' :: parseSegGo fuel rest
  | fuel + 1, c :: rest => .lit c :: parseSegGo fuel rest

/-- Tokenises one glob segment. -/
def parseSegChars (cs : List Char) : List GlobTok := parseSegGo cs.length cs

/-- Matches a tokenised glob segment against a name, character by
character.  `anyStr` (`*`) matches any run of characters within the
segment.  Fuelled: every recursive call shrinks `ps.length + cs.length`,
so fuel `ps.length + cs.length + 1` always suffices. -/
def matchToksGo : Nat → List GlobTok → List Char → Bool
  | 0, _, _ => false
  | _ + 1, [], [] => true
  | _ + 1, [], _ :: _ => false
  | fuel + 1, .anyStr :: ps, [] => matchToksGo fuel ps []
  | fuel + 1, .anyStr :: ps, c :: cs =>
    matchToksGo fuel ps (c :: cs) || matchToksGo fuel (.anyStr :: ps) cs
  | _ + 1, .anyChar :: _, [] => false
  | fuel + 1, .anyChar :: ps, _ :: cs => matchToksGo fuel ps cs
  | _ + 1, .lit _ :: _, [] => false
  | fuel + 1, .lit p :: ps, c :: cs => p == c && matchToksGo fuel ps cs
  | _ + 1, .cls _ _ :: _, [] => false
  | fuel + 1, .cls neg items :: ps, c :: cs =>
    (neg != items.any (clsItemMatch c)) && matchToksGo fuel ps cs

/-- Matches a tokenised glob segment against a name. -/
def matchToks (ps : List GlobTok) (cs : List Char) : Bool :=
  matchToksGo (ps.length + cs.length + 1) ps cs

/-- Matches one glob segment against one path-segment name, with the
`dot: false` rule: a name starting with `.` is only matched by a pattern
segment that itself starts with a literal `.`. -/
def matchSegment (pat name : String) : Bool :=
  if strStartsWith name "." && !(strStartsWith pat ".") then false
  else matchToks (parseSegChars pat.toList) name.toList

/-- Matches a `/`-split glob pattern against a `/`-split path.  The
segment `**` (globstar) matches zero or more path segments, none of which
may start with `.` under `dot: false`.  Fuelled like `matchToksGo`. -/
def matchSegsGo : Nat → List String → List String → Bool
  | 0, _, _ => false
  | _ + 1, [], [] => true
  | _ + 1, [], _ :: _ => false
  | fuel + 1, "**" :: ps, [] => matchSegsGo fuel ps []
  | fuel + 1, "**" :: ps, t :: ts =>
    matchSegsGo fuel ps (t :: ts) ||
      (!(strStartsWith t ".") && matchSegsGo fuel ("**" :: ps) ts)
  | _ + 1, _ :: _, [] => false
  | fuel + 1, p :: ps, t :: ts => matchSegment p t && matchSegsGo fuel ps ts

/-- Matches a `/`-split glob pattern against a `/`-split path. -/
def matchSegs (ps ts : List String) : Bool :=
  matchSegsGo (ps.length + ts.length + 1) ps ts

/-- `matcher.match(target)` for one compiled pattern. -/
def matchGlob (pattern target : String) : Bool :=
  matchSegs (splitOnSlash pattern) (splitOnSlash target)

/-! ### Pattern normalisation and the filter function (helpers.ts 171-254) -/

/-- `toPosix` (helpers.ts 171-173): backslashes become forward slashes. -/
def toPosix (input : String) : String :=
  String.mk (input.toList.map (fun c => if c == '\\' then '/' else c))

/-- Strips one leading `./`, as the regex `/^\.\//` does. -/
def dropLeadingDotSlash (s : String) : String :=
  if strStartsWith s "./" then strDrop s 2 else s

/-- `normalizePattern` (helpers.ts 175-187). -/
def normalizePattern (pattern sourceRoot : String) : String :=
  let trimmed := strTrim pattern
  if trimmed == "" then ""
  else
    let posixPattern := dropLeadingDotSlash (toPosix trimmed)
    let normalizedSource := strDropTrailing (toPosix sourceRoot) '/'
    if strStartsWith posixPattern (normalizedSource ++ "/") then
      strDrop posixPattern (strLength normalizedSource + 1)
    else posixPattern

/-- `buildMatcher` (helpers.ts 189-207): `none` models the `undefined`
return (absent matcher); otherwise the compiled patterns, with a trailing
`/` rewritten to `/**`. -/
def buildMatcher (patterns : Option (List String)) (sourceRoot : String) :
    Option (List String) :=
  match patterns with
  | none => none
  | some pats =>
    if pats.length == 0 then none
    else
      let normalized :=
        (pats.map (fun p => normalizePattern p sourceRoot)).filter
          (fun p => 0 < strLength p)
      if normalized.length == 0 then none
      else some (normalized.map (fun p => if strEndsWith p "/" then p ++ "**" else p))

/-- `matchers.some((matcher) => matcher.match(target))` (helpers.ts 206). -/
def matcherMatches (ms : List String) (target : String) : Bool :=
  ms.any (fun m => matchGlob m target)

/-- `path.posix.basename` on a canonical relative path. -/
def posixBasename (p : String) : String := ((splitOnSlash p).getLast?).getD ""

/-- The candidate strings tested by the filter (helpers.ts 226):
`relative ? [relative, basename] : [basename]`. -/
def candidatesFor (relative : String) : List String :=
  if relative != "" then [relative, posixBasename relative]
  else [posixBasename relative]

/-- `candidates.some((candidate) => compiled(candidate))`
(helpers.ts 241, 245). -/
def candMatch (ms : List String) (relative : String) : Bool :=
  (candidatesFor relative).any (fun c => matcherMatches ms c)

/-- `path.isAbsolute` for POSIX paths. -/
def isAbsolutePath (s : String) : Bool := strStartsWith s "/"

/-- `addTrailingSlash` (helpers.ts 136-138). -/
def addTrailingSlash (str : String) : String :=
  if strEndsWith str "/" then str else str ++ "/"

/-- `path.join(a, b)` for a non-empty `a` and a clean (already normalised)
relative `b`. -/
def joinPath (a b : String) : String :=
  if a == "" then b else addTrailingSlash (toPosix a) ++ b

/-- `path.relative(root, p)` for an absolute `p` against an absolute,
trailing-slash-free `root`: the root-relative remainder when `p` lies at
or below `root`, and otherwise a `..`-prefixed path — the filter never
uses such a result beyond testing its `..` prefix (helpers.ts 228). -/
def relativeToRoot (root p : String) : String :=
  if p == root then ""
  else if strStartsWith p (addTrailingSlash root) then
    strDrop p (strLength (addTrailingSlash root))
  else "../" ++ p

/-- `path.resolve(s)` with the ambient process working directory `cwd`
made explicit: an absolute path is kept (separators normalised, trailing
slashes stripped, inputs clean of `.`/`..` segments), a relative path is
resolved against `cwd`. -/
def resolvePath (cwd s : String) : String :=
  if isAbsolutePath s then strDropTrailing (toPosix s) '/'
  else strDropTrailing (joinPath cwd (toPosix s)) '/'

/-- The relative path the filter computes (helpers.ts 223-224):
`path.relative(root, absolutePath)` where `absolutePath` is `filePath`
itself when absolute and `path.join(root, filePath)` otherwise.  For a
relative `filePath` the round trip `path.relative(root, path.join(root,
filePath))` normalises back to `filePath` (clean inputs), so the as-given,
source-prefixed path string reaches the candidate checks. -/
def filterRelative (root filePath : String) : String :=
  if isAbsolutePath filePath then toPosix (relativeToRoot root filePath)
  else toPosix filePath

/-- What the filter closure captures: the resolved root and the two
compiled matchers. -/
structure CompiledFilter where
  root : String
  inc : Option (List String)
  exc : Option (List String)
deriving DecidableEq

/-- `createFilterFunc` (helpers.ts 213-221): resolves the source root
(`path.resolve`, whose ambient working directory is the explicit `cwd`)
and compiles both pattern lists against it. -/
def createFilterFunc (cwd sourceRoot : String)
    (excludePats includePats : Option (List String)) : CompiledFilter :=
  let root := resolvePath cwd sourceRoot
  ⟨root, buildMatcher includePats root, buildMatcher excludePats root⟩

/-- The filter closure returned by `createFilterFunc` (helpers.ts
222-253), applied to the path string the caller passes.  Once the computed
`relative` has passed the `..` check, `absolutePath = path.join(root,
relative)` is the location `relative` below the source root, so the
`fs.existsSync`/`fs.lstatSync` probe of lines 233-239 reads `srcTree`
there (the model's view of the disk below the source root). -/
def filterFunc (srcTree : FS) (cf : CompiledFilter) (filePath : String) : Bool :=
  let relative := filterRelative cf.root filePath
  if strStartsWith relative ".." then true
  else if pathExistsIn srcTree relative && lstatIsDir srcTree relative then true
  else
    match cf.inc with
    | some ms =>
      if !(candMatch ms relative) then false
      else
        match cf.exc with
        | some es => !(candMatch es relative)
        | none => true
    | none =>
      match cf.exc with
      | some es => !(candMatch es relative)
      | none => true

/-! ### Data model (types.ts) and the sync engine (helpers.ts 259-402) -/

/-- Repository metadata injected into every template context
(`templateContext['repo'] = repo`, helpers.ts 160-162). -/
structure RepoInfo where
  url : String
  fullName : String
  uniqueName : String
  host : String
  user : String
  name : String
  branch : String
deriving DecidableEq

/-- The `template` field of a rule: `false`, `true`, or an object of named
values (`boolean | Record<string, unknown>`). -/
inductive TemplateOpt where
  | off
  | enabled
  | withCtx (ctx : List (String × String))
deriving DecidableEq

/-- `typeof template === 'object' ? template : {}` (helpers.ts 279) for a
truthy `template`; `none` when `template` is falsy. -/
def templateContextOf : TemplateOpt → Option (List (String × String))
  | .off => none
  | .enabled => some []
  | .withCtx c => some c

/-- One synchronization directive (`FileConfig`, types.ts). -/
structure FileConfig where
  source : String
  dest : String
  template : TemplateOpt := .off
  replace : Option Bool := none
  deleteOrphaned : Bool := false
  includePats : Option (List String) := none
  excludePats : Option (List String) := none
deriving DecidableEq

/-- The external templating collaborator: `nunjucks.render` applied to the
content of the source file, the caller context and the implicit repository
metadata (helpers.ts 151-166).  Kept as a parameter: any pure renderer. -/
abbrev Renderer := String → List (String × String) → Option RepoInfo → String

/-- `shouldSkipDest` (helpers.ts 271-276): true iff `replace === false`
and the destination path already exists. -/
def shouldSkipDest (replace : Option Bool) (destTree : FS) (p : String) : Bool :=
  if replace != some false then false else pathExistsIn destTree p

/-- The `.git` guard of the orphan pass (helpers.ts 381):
`destFile.startsWith('.git/') || destFile === '.git'`. -/
def isGitSkipped (p : String) : Bool := strStartsWith p ".git/" || p == ".git"

/-- Content of the source file at relative path `p`. -/
def srcContent (src : FS) (p : String) : String := (lookupFile src p).getD ""

/-- The compiled filter of a rule,
`createFilterFunc(src, exclude, file.include)` (helpers.ts 268). -/
def copyFilter (cwd sourceRoot : String) (file : FileConfig) : CompiledFilter :=
  createFilterFunc cwd sourceRoot file.excludePats file.includePats

/-- `shouldFilter = exclude !== undefined || file.include !== undefined`
(helpers.ts 269). -/
def copyShouldFilter (file : FileConfig) : Bool :=
  file.excludePats.isSome || file.includePats.isSome

/-- The copy/render phase of `copy` (helpers.ts 278-358): the destination
tree after the template or plain-copy branches, before orphan
reconciliation.  Single-file rules place the file at relative path `""` on
both sides.  The filter is fed the same path strings the source passes:
`path.join(src, srcFile)` for directory entries (helpers.ts 287-288,
328-329, 346-347) and the rule source itself for single files
(helpers.ts 305 and, via the `fs.copy` filter option, 322). -/
def copyWritePhase (render : Renderer) (cwd sourceRoot : String) (file : FileConfig)
    (isDirectory : Bool) (src : FS) (dest : FS) (repo : Option RepoInfo) : FS :=
  let ff := fun fp => filterFunc src (copyFilter cwd sourceRoot file) fp
  let shouldFilter := copyShouldFilter file
  match templateContextOf file.template with
  | some tctx =>
    if isDirectory then
      (readFilesRecursive src true).foldl
        (fun d f =>
          if !(ff (joinPath sourceRoot f)) then d
          else if shouldSkipDest file.replace d f then d
          else setFile d f (render (srcContent src f) tctx repo))
        dest
    else
      if ff sourceRoot then
        if shouldSkipDest file.replace dest "" then dest
        else setFile dest "" (render (srcContent src "") tctx repo)
      else dest
  | none =>
    if !isDirectory then
      if shouldSkipDest file.replace dest "" then dest
      else if shouldFilter then
        if ff sourceRoot then setFile dest "" (srcContent src "") else dest
      else setFile dest "" (srcContent src "")
    else if file.replace == some false then
      (readFilesRecursive src true).foldl
        (fun d f =>
          if shouldFilter && !(ff (joinPath sourceRoot f)) then d
          else if shouldSkipDest file.replace d f then d
          else setFile d f (srcContent src f))
        dest
    else if shouldFilter then
      (readFilesRecursive src true).foldl
        (fun d f =>
          if !(ff (joinPath sourceRoot f)) then d
          else setFile d f (srcContent src f))
        dest
    else
      (readFilesRecursive src true).foldl
        (fun d f => setFile d f (srcContent src f))
        dest

/-- The orphan-reconciliation pass of `copy` (helpers.ts 360-401), applied
to the destination tree `dest1` left by the copy/render phase.  Runs only
for directory rules with `deleteOrphaned`. -/
def orphanPhase (cwd sourceRoot : String) (file : FileConfig) (isDirectory : Bool)
    (src : FS) (dest1 : FS) : FS :=
  if isDirectory && file.deleteOrphaned then
    let ff := fun fp => filterFunc src (copyFilter cwd sourceRoot file) fp
    let shouldFilter := copyShouldFilter file
    let srcFileList := readFilesRecursive src true
    let destFileList := readFilesRecursive dest1 true
    let isInScope := fun p => if !shouldFilter then true else ff (joinPath sourceRoot p)
    let shouldExist := srcFileList.filter (fun p => isInScope p)
    destFileList.foldl
      (fun d f =>
        if isGitSkipped f then d
        else if !(isInScope f) then d
        else if shouldExist.contains f then d
        else removeFile d f)
      dest1
  else dest1

/-- `copy` (helpers.ts 259-402) on working trees.

`sourceRoot` is the path string of the rule source (used only to normalise
patterns against it).  `src` is the tree below the source root and `dest`
the tree below the destination root.  The result is the destination tree
after the copy/render phase and, for directory rules with
`deleteOrphaned`, the orphan-reconciliation pass. -/
def copy (render : Renderer) (cwd sourceRoot : String) (file : FileConfig)
    (isDirectory : Bool) (src : FS) (dest : FS) (repo : Option RepoInfo) : FS :=
  orphanPhase cwd sourceRoot file isDirectory src
    (copyWritePhase render cwd sourceRoot file isDirectory src dest repo)

/-! ### Proof-layer descriptions of the two phases of `copy` -/

/-- Left-biased choice on optional contents. -/
def optOr (a b : Option String) : Option String :=
  match a with
  | some x => some x
  | none => b

/-- The content the copy/render phase writes at relative path `q`, if it
writes there at all.  Only used to characterise `copyWritePhase` when
`replace` is not `false` (no per-file skip). -/
def writeMap (render : Renderer) (cwd sourceRoot : String) (file : FileConfig)
    (isDirectory : Bool) (src : FS) (repo : Option RepoInfo) (q : String) :
    Option String :=
  let ff := fun fp => filterFunc src (copyFilter cwd sourceRoot file) fp
  let shouldFilter := copyShouldFilter file
  match templateContextOf file.template with
  | some tctx =>
    if isDirectory then
      if q ∈ readFilesRecursive src true ∧ ff (joinPath sourceRoot q) = true then
        some (render (srcContent src q) tctx repo)
      else none
    else
      if q = "" ∧ ff sourceRoot = true then
        some (render (srcContent src "") tctx repo)
      else none
  | none =>
    if !isDirectory then
      if q = "" ∧ (shouldFilter = false ∨ ff sourceRoot = true) then
        some (srcContent src "")
      else none
    else if shouldFilter then
      if q ∈ readFilesRecursive src true ∧ ff (joinPath sourceRoot q) = true then
        some (srcContent src q)
      else none
    else
      if q ∈ readFilesRecursive src true then some (srcContent src q) else none

/-- Whether the orphan pass removes the destination file at relative path
`q`: the rule is directory-shaped with `deleteOrphaned`, the path is not
under the top-level `.git` guard, it is in scope, and no in-scope source
file has this path. -/
def remCond (cwd sourceRoot : String) (file : FileConfig) (isDirectory : Bool)
    (src : FS) (q : String) : Bool :=
  let ff := fun fp => filterFunc src (copyFilter cwd sourceRoot file) fp
  let shouldFilter := copyShouldFilter file
  let isInScope := fun p => if !shouldFilter then true else ff (joinPath sourceRoot p)
  (isDirectory && file.deleteOrphaned) && !(isGitSkipped q) && isInScope q &&
    !(((readFilesRecursive src true).filter (fun p => isInScope p)).contains q)

/-- The path string `copy` hands the filter when it concerns the
destination-relative path `q`: `path.join(src, q)` for a directory rule
(helpers.ts 287, 328, 346, 370), the rule source itself for a single-file
rule (helpers.ts 305, 322). -/
def ruleFilterArg : String → Bool → String → String
  | sourceRoot, true, q => joinPath sourceRoot q
  | sourceRoot, false, _ => sourceRoot

/-! ### The per-rule orchestrator step (input.ts 110-156) -/

/-- Observable outcome of one `processFile` invocation. -/
inductive SyncOutcome where
  | warned
  | removedOrphan
  | skippedNoDest
  | skippedReplaceFalse
  | synced
deriving DecidableEq

/-- Models `git rm -f <dest>` (`Git.remove`, git.ts 187-189) on the
destination subtree.  Modelled from the spec: the git binary the command
shells out to is outside the repository; the spec fixes its effect as
"deletion of the (no-longer-sourced) destination entirely". -/
def gitRemoveDest (_destTree : FS) : FS := []

/-- `processFile` (input.ts 110-156) restricted to its effect on the
destination subtree of one rule.  `srcEntry` is `none` when
`fs.existsSync(file.source)` is false, otherwise carries the stat result
(`pathIsDirectory`) and the source tree.  `dest` is the destination
subtree (single-file convention as in `copy`). -/
def processFile (render : Renderer) (cwd : String) (file : FileConfig)
    (srcEntry : Option (Bool × FS)) (dest : FS) (repo : Option RepoInfo) :
    SyncOutcome × FS :=
  let destExists := !dest.isEmpty
  match srcEntry with
  | none =>
    if !file.deleteOrphaned then (.warned, dest)
    else if destExists then (.removedOrphan, gitRemoveDest dest)
    else (.skippedNoDest, dest)
  | some (isDirectory, src) =>
    if !isDirectory && destExists && file.replace == some false then
      (.skippedReplaceFalse, dest)
    else
      (.synced,
        copy render cwd
          (if isDirectory then addTrailingSlash file.source else file.source)
          file isDirectory src dest repo)

/-! ### Concrete fixtures used by closed instances -/

/-- A renderer that returns the template source unchanged. -/
def rendId : Renderer := fun c _ _ => c

/-- Directory rule: `replace: true`, `deleteOrphaned: true`, no filters. -/
def fcOrph : FileConfig :=
  { source := "s", dest := "d", replace := some true, deleteOrphaned := true }

/-- Directory rule with `deleteOrphaned` and exclude patterns shadowed by a
source directory named like a destination file. -/
def fcScope : FileConfig :=
  { source := "s", dest := "d", deleteOrphaned := true,
    excludePats := some ["alpha", "data.bin"] }

/-- Directory rule with `deleteOrphaned` and a `*.log` exclude. -/
def fcLog : FileConfig :=
  { source := "s", dest := "d", deleteOrphaned := true,
    excludePats := some ["*.log"] }

/-- Directory rule: `replace: false` together with `deleteOrphaned`. -/
def fcReplDel : FileConfig :=
  { source := "s", dest := "d", replace := some false, deleteOrphaned := true }

/-- Rule with `replace: false` only. -/
def fcRepl : FileConfig := { source := "s", dest := "d", replace := some false }

/-- Rule without `deleteOrphaned` (for the missing-source warning path). -/
def fcWarn : FileConfig := { source := "s", dest := "d" }

/-- Rule with `deleteOrphaned` (for the missing-source removal path). -/
def fcDel : FileConfig := { source := "s", dest := "d", deleteOrphaned := true }

/-- Rule whose include and exclude lists hold only whitespace entries. -/
def fcWs : FileConfig :=
  { source := "s", dest := "d", includePats := some [" ", ""],
    excludePats := some ["\t "] }

/-- Single-file rule with an include pattern that needs a non-empty path. -/
def fcInc : FileConfig :=
  { source := "s", dest := "d", includePats := some ["**/*.txt"] }

/-! ### Basic lemmas about the tree model -/

theorem lookupFile_cons (e : String × String) (fs : FS) (q : String) :
    lookupFile (e :: fs) q = if e.1 == q then some e.2 else lookupFile fs q := by
  cases h : e.1 == q <;> simp [lookupFile, List.find?, h]

theorem removeFile_cons (e : String × String) (fs : FS) (p : String) :
    removeFile (e :: fs) p =
      if e.1 == p then removeFile fs p else e :: removeFile fs p := by
  cases h : e.1 == p <;> simp [removeFile, List.filter, h]

theorem lookupFile_removeFile (fs : FS) (p q : String) :
    lookupFile (removeFile fs p) q = if q = p then none else lookupFile fs q := by
  induction fs with
  | nil => simp [removeFile, lookupFile]
  | cons e fs ih =>
    rw [removeFile_cons]
    by_cases hep : e.1 = p
    · rw [if_pos (by simp [hep]), ih, lookupFile_cons]
      by_cases hqp : q = p
      · simp [hqp]
      · have h1 : (e.1 == q) = false :=
          beq_eq_false_iff_ne.mpr (fun h => hqp ((hep.symm.trans h).symm))
        simp [hqp, h1]
    · rw [if_neg (by simp [hep]), lookupFile_cons, ih, lookupFile_cons]
      by_cases hqp : q = p
      · have h1 : (e.1 == q) = false :=
          beq_eq_false_iff_ne.mpr (fun h => hep (h.trans hqp))
        simp [hqp, h1, hep]
      · rw [if_neg hqp, if_neg hqp]

theorem lookupFile_setFile (fs : FS) (p c : String) (q : String) :
    lookupFile (setFile fs p c) q = if q = p then some c else lookupFile fs q := by
  rw [setFile, lookupFile_cons, lookupFile_removeFile]
  by_cases hqp : q = p
  · subst hqp; simp
  · have h1 : ((p, c).1 == q) = false :=
      beq_eq_false_iff_ne.mpr (fun h => hqp h.symm)
    simp [hqp, h1]

theorem lookupFile_isSome_iff_mem (fs : FS) (q : String) :
    (lookupFile fs q).isSome = true ↔ q ∈ pathsOf fs := by
  induction fs with
  | nil => simp [lookupFile, pathsOf]
  | cons e fs ih =>
    rw [lookupFile_cons]
    by_cases heq : e.1 = q
    · simp [pathsOf, heq]
    · have hne : ¬ q = e.1 := fun h => heq h.symm
      have heq' : (e.1 == q) = false := by simp [heq]
      simp [heq', pathsOf, ih, hne]

theorem pathExistsIn_of_lookup (fs : FS) (q c : String)
    (h : lookupFile fs q = some c) : pathExistsIn fs q = true := by
  have hs : (lookupFile fs q).isSome = true := by simp [h]
  rw [lookupFile_isSome_iff_mem] at hs
  have : fs.any (fun e => e.1 == q) = true := by
    simp only [pathsOf, List.mem_map] at hs
    obtain ⟨e, he, hq⟩ := hs
    simp only [List.any_eq_true]
    exact ⟨e, he, by simp [hq]⟩
  simp [pathExistsIn, this]

theorem readFilesRecursive_true (tree : FS) :
    readFilesRecursive tree true = pathsOf tree := by
  simp [readFilesRecursive]

/-! ### Lemmas about folds over path lists -/

theorem foldl_step_congr {α : Type} (s1 s2 : FS → α → FS) (l : List α) (d0 : FS)
    (h : ∀ d f, s1 d f = s2 d f) : l.foldl s1 d0 = l.foldl s2 d0 := by
  have hs : s1 = s2 := funext fun d => funext fun f => h d f
  rw [hs]

theorem lookupFile_foldl_set (g : String → String) (l : List String) (d0 : FS)
    (q : String) :
    lookupFile (l.foldl (fun d f => setFile d f (g f)) d0) q =
      if q ∈ l then some (g q) else lookupFile d0 q := by
  induction l generalizing d0 with
  | nil => simp
  | cons f l ih =>
    rw [List.foldl_cons, ih]
    by_cases hmem : q ∈ l
    · simp [hmem]
    · rw [if_neg hmem]
      by_cases hqf : q = f
      · subst hqf; simp [lookupFile_setFile]
      · simp [lookupFile_setFile, hqf, hmem]

theorem lookupFile_foldl_setIf (cond : String → Bool) (g : String → String)
    (l : List String) (d0 : FS) (q : String) :
    lookupFile (l.foldl (fun d f => if cond f then setFile d f (g f) else d) d0) q =
      if q ∈ l ∧ cond q = true then some (g q) else lookupFile d0 q := by
  induction l generalizing d0 with
  | nil => simp
  | cons f l ih =>
    rw [List.foldl_cons, ih]
    by_cases hm : q ∈ l ∧ cond q = true
    · rw [if_pos hm, if_pos ⟨List.mem_cons_of_mem f hm.1, hm.2⟩]
    · rw [if_neg hm]
      by_cases hqf : q = f
      · subst hqf
        by_cases hc : cond q = true
        · rw [if_pos (show q ∈ q :: l ∧ cond q = true from ⟨List.mem_cons_self q l, hc⟩)]
          simp [hc, lookupFile_setFile]
        · have hc' : cond q = false := by revert hc; cases cond q <;> simp
          have hnot : ¬(q ∈ q :: l ∧ cond q = true) := by
            rintro ⟨_, hct⟩; rw [hc'] at hct; cases hct
          rw [if_neg hnot]
          simp [hc']
      · have hnot : ¬(q ∈ f :: l ∧ cond q = true) := by
          rintro ⟨hmem, hc⟩
          rcases List.mem_cons.mp hmem with h | h
          · exact hqf h
          · exact hm ⟨h, hc⟩
        rw [if_neg hnot]
        by_cases hcf : cond f = true
        · simp [hcf, lookupFile_setFile, hqf]
        · have hcf' : cond f = false := by revert hcf; cases cond f <;> simp
          simp [hcf']

theorem lookupFile_foldl_removeIf (keep : String → Bool) (l : List String) (d0 : FS)
    (q : String) :
    lookupFile (l.foldl (fun d f => if keep f then d else removeFile d f) d0) q =
      if q ∈ l ∧ keep q = false then none else lookupFile d0 q := by
  induction l generalizing d0 with
  | nil => simp
  | cons f l ih =>
    rw [List.foldl_cons, ih]
    by_cases hm : q ∈ l ∧ keep q = false
    · rw [if_pos hm, if_pos ⟨List.mem_cons_of_mem f hm.1, hm.2⟩]
    · rw [if_neg hm]
      by_cases hqf : q = f
      · subst hqf
        by_cases hk : keep q = true
        · have hnot : ¬(q ∈ q :: l ∧ keep q = false) := by
            rintro ⟨_, hkf⟩; rw [hk] at hkf; cases hkf
          rw [if_neg hnot]
          simp [hk]
        · have hk' : keep q = false := by revert hk; cases keep q <;> simp
          rw [if_pos (show q ∈ q :: l ∧ keep q = false from ⟨List.mem_cons_self q l, hk'⟩)]
          simp [hk', lookupFile_removeFile]
      · have hnot : ¬(q ∈ f :: l ∧ keep q = false) := by
          rintro ⟨hmem, hk⟩
          rcases List.mem_cons.mp hmem with h | h
          · exact hqf h
          · exact hm ⟨h, hk⟩
        rw [if_neg hnot]
        by_cases hkf : keep f = true
        · simp [hkf]
        · have hkf' : keep f = false := by revert hkf; cases keep f <;> simp
          simp [hkf', lookupFile_removeFile, hqf]

theorem lookupFile_foldl_guardedWrite (A : String → Bool) (g : String → String)
    (l : List String) (d0 : FS) (q c : String) (h0 : lookupFile d0 q = some c) :
    lookupFile
      (l.foldl
        (fun d f =>
          if A f then d
          else if pathExistsIn d f then d
          else setFile d f (g f))
        d0) q = some c := by
  induction l generalizing d0 with
  | nil => exact h0
  | cons f l ih =>
    rw [List.foldl_cons]
    apply ih
    by_cases hA : A f = true
    · simp [hA, h0]
    · have hA' : A f = false := by revert hA; cases A f <;> simp
      by_cases hex : pathExistsIn d0 f = true
      · simp [hA', hex, h0]
      · have hex' : pathExistsIn d0 f = false := by
          revert hex; cases pathExistsIn d0 f <;> simp
        have hqf : ¬ q = f := by
          intro h; subst h; exact hex (pathExistsIn_of_lookup d0 q c h0)
        simp [hA', hex', lookupFile_setFile, hqf, h0]

theorem lookupFile_eq_none_of_not_mem (fs : FS) (q : String)
    (h : ¬ q ∈ pathsOf fs) : lookupFile fs q = none := by
  cases hl : lookupFile fs q with
  | none => rfl
  | some c =>
    exact absurd ((lookupFile_isSome_iff_mem fs q).mp (by simp [hl])) h

/-! ### Characterisation of the two phases of `copy` -/

theorem shouldSkipDest_of_ne (replace : Option Bool) (h : replace ≠ some false)
    (d : FS) (p : String) : shouldSkipDest replace d p = false := by
  have hb : (replace != some false) = true := bne_iff_ne.mpr h
  simp [shouldSkipDest, hb]

theorem bool_eq_false_of_ne_true {b : Bool} (h : ¬ b = true) : b = false := by
  cases b
  · rfl
  · exact absurd rfl h

theorem lookupFile_foldl_filterSkip (repl : Option Bool) (hrepl : repl ≠ some false)
    (A : String → Bool) (g : String → String) (l : List String) (d0 : FS)
    (q : String) :
    lookupFile
      (l.foldl
        (fun d f =>
          if !(A f) then d
          else if shouldSkipDest repl d f then d
          else setFile d f (g f))
        d0) q =
      if q ∈ l ∧ A q = true then some (g q) else lookupFile d0 q := by
  rw [foldl_step_congr
    (fun d f =>
      if !(A f) then d
      else if shouldSkipDest repl d f then d
      else setFile d f (g f))
    (fun d f => if A f then setFile d f (g f) else d)
    l d0 (by
      intro d f
      cases hf : A f <;> simp [hf, shouldSkipDest_of_ne repl hrepl])]
  exact lookupFile_foldl_setIf A g l d0 q

theorem lookupFile_foldl_filterOnly (A : String → Bool) (g : String → String)
    (l : List String) (d0 : FS) (q : String) :
    lookupFile
      (l.foldl (fun d f => if !(A f) then d else setFile d f (g f)) d0) q =
      if q ∈ l ∧ A q = true then some (g q) else lookupFile d0 q := by
  rw [foldl_step_congr
    (fun d f => if !(A f) then d else setFile d f (g f))
    (fun d f => if A f then setFile d f (g f) else d)
    l d0 (by intro d f; cases hf : A f <;> simp [hf])]
  exact lookupFile_foldl_setIf A g l d0 q

theorem copyWritePhase_lookup (render : Renderer) (cwd sourceRoot : String)
    (file : FileConfig) (isDirectory : Bool) (src dest : FS)
    (repo : Option RepoInfo) (q : String) (hrepl : file.replace ≠ some false) :
    lookupFile (copyWritePhase render cwd sourceRoot file isDirectory src dest repo) q =
      optOr (writeMap render cwd sourceRoot file isDirectory src repo q)
        (lookupFile dest q) := by
  have hskip : ∀ (d : FS) (p : String), shouldSkipDest file.replace d p = false :=
    shouldSkipDest_of_ne file.replace hrepl
  have hne : (file.replace == some false) = false := beq_eq_false_iff_ne.mpr hrepl
  simp only [copyWritePhase, writeMap]
  cases htpl : file.template with
  | off =>
    simp only [templateContextOf]
    cases isDirectory with
    | false =>
      rw [if_pos (show (!false) = true from rfl), hskip dest ""]
      rw [if_neg (show ¬ (false = true) from by simp)]
      by_cases hsf : copyShouldFilter file = true
      · rw [if_pos hsf]
        by_cases hff : filterFunc src (copyFilter cwd sourceRoot file) sourceRoot = true
        · rw [if_pos hff]
          by_cases hq : q = ""
          · subst hq; simp [lookupFile_setFile, optOr, hsf, hff]
          · simp [lookupFile_setFile, optOr, hq]
        · rw [if_neg hff]
          by_cases hq : q = ""
          · subst hq; simp [optOr, hsf, hff]
          · simp [optOr, hq]
      · rw [if_neg hsf]
        have hsf' : copyShouldFilter file = false := bool_eq_false_of_ne_true hsf
        by_cases hq : q = ""
        · subst hq; simp [lookupFile_setFile, optOr, hsf']
        · simp [lookupFile_setFile, optOr, hq]
    | true =>
      rw [if_neg (show ¬ ((!true) = true) from by simp)]
      rw [if_neg (show ¬ ((file.replace == some false) = true) from by simp [hne])]
      by_cases hsf : copyShouldFilter file = true
      · rw [if_pos hsf,
          lookupFile_foldl_filterOnly
            (fun f => filterFunc src (copyFilter cwd sourceRoot file) (joinPath sourceRoot f))
            (fun f => srcContent src f) (readFilesRecursive src true) dest q]
        by_cases h : q ∈ readFilesRecursive src true ∧
            filterFunc src (copyFilter cwd sourceRoot file) (joinPath sourceRoot q) = true <;>
          simp [h, optOr, hsf]
      · rw [if_neg hsf,
          lookupFile_foldl_set (fun f => srcContent src f)
            (readFilesRecursive src true) dest q]
        have hsf' : copyShouldFilter file = false := bool_eq_false_of_ne_true hsf
        by_cases h : q ∈ readFilesRecursive src true <;> simp [h, optOr, hsf']
  | enabled =>
    simp only [templateContextOf]
    cases isDirectory with
    | true =>
      rw [if_pos (show (true : Bool) = true from rfl)]
      rw [lookupFile_foldl_filterSkip file.replace hrepl
        (fun f => filterFunc src (copyFilter cwd sourceRoot file) (joinPath sourceRoot f))
        (fun f => render (srcContent src f) [] repo)
        (readFilesRecursive src true) dest q]
      by_cases h : q ∈ readFilesRecursive src true ∧
          filterFunc src (copyFilter cwd sourceRoot file) (joinPath sourceRoot q) = true <;>
        simp [h, optOr]
    | false =>
      rw [if_neg (show ¬ ((false : Bool) = true) from by simp)]
      by_cases hff : filterFunc src (copyFilter cwd sourceRoot file) sourceRoot = true
      · rw [if_pos hff, hskip dest "", if_neg (show ¬ (false = true) from by simp)]
        by_cases hq : q = ""
        · subst hq; simp [lookupFile_setFile, optOr, hff]
        · simp [lookupFile_setFile, optOr, hq]
      · rw [if_neg hff]
        by_cases hq : q = ""
        · subst hq; simp [optOr, hff]
        · simp [optOr, hq]
  | withCtx ctx =>
    simp only [templateContextOf]
    cases isDirectory with
    | true =>
      rw [if_pos (show (true : Bool) = true from rfl)]
      rw [lookupFile_foldl_filterSkip file.replace hrepl
        (fun f => filterFunc src (copyFilter cwd sourceRoot file) (joinPath sourceRoot f))
        (fun f => render (srcContent src f) ctx repo)
        (readFilesRecursive src true) dest q]
      by_cases h : q ∈ readFilesRecursive src true ∧
          filterFunc src (copyFilter cwd sourceRoot file) (joinPath sourceRoot q) = true <;>
        simp [h, optOr]
    | false =>
      rw [if_neg (show ¬ ((false : Bool) = true) from by simp)]
      by_cases hff : filterFunc src (copyFilter cwd sourceRoot file) sourceRoot = true
      · rw [if_pos hff, hskip dest "", if_neg (show ¬ (false = true) from by simp)]
        by_cases hq : q = ""
        · subst hq; simp [lookupFile_setFile, optOr, hff]
        · simp [lookupFile_setFile, optOr, hq]
      · rw [if_neg hff]
        by_cases hq : q = ""
        · subst hq; simp [optOr, hff]
        · simp [optOr, hq]

theorem if_if_if_or (a b c : Bool) (d r : FS) :
    (if a then d else if b then d else if c then d else r) =
      if (a || b || c) then d else r := by
  cases a <;> cases b <;> cases c <;> simp

theorem removeIf_rem_collapse (g s c : Bool) (dest1 : FS) (q : String) :
    (if q ∈ pathsOf dest1 ∧ (g || !s || c) = false then none
     else lookupFile dest1 q) =
      if ((!g && s && !c) : Bool) = true then none else lookupFile dest1 q := by
  cases g
  · cases s
    · simp
    · cases c
      · by_cases hmem : q ∈ pathsOf dest1
        · simp [hmem]
        · simp [hmem, lookupFile_eq_none_of_not_mem dest1 q hmem]
      · simp
  · simp

theorem orphanPhase_lookup (cwd sourceRoot : String) (file : FileConfig)
    (isDirectory : Bool) (src dest1 : FS) (q : String) :
    lookupFile (orphanPhase cwd sourceRoot file isDirectory src dest1) q =
      if remCond cwd sourceRoot file isDirectory src q = true then none
      else lookupFile dest1 q := by
  simp only [orphanPhase, remCond]
  by_cases hd : (isDirectory && file.deleteOrphaned) = true
  · rw [if_pos hd]
    rw [foldl_step_congr
      (fun d f =>
        if isGitSkipped f then d
        else
          if !(if !(copyShouldFilter file) then true
               else filterFunc src (copyFilter cwd sourceRoot file) (joinPath sourceRoot f)) then d
          else
            if ((readFilesRecursive src true).filter
                (fun p =>
                  if !(copyShouldFilter file) then true
                  else filterFunc src (copyFilter cwd sourceRoot file) (joinPath sourceRoot p))).contains f then d
            else removeFile d f)
      (fun d f =>
        if (isGitSkipped f ||
            !(if !(copyShouldFilter file) then true
              else filterFunc src (copyFilter cwd sourceRoot file) (joinPath sourceRoot f)) ||
            ((readFilesRecursive src true).filter
              (fun p =>
                if !(copyShouldFilter file) then true
                else filterFunc src (copyFilter cwd sourceRoot file) (joinPath sourceRoot p))).contains f) then d
        else removeFile d f)
      (readFilesRecursive dest1 true) dest1 (by
        intro d f
        exact if_if_if_or (isGitSkipped f)
          (!(if !(copyShouldFilter file) then true
             else filterFunc src (copyFilter cwd sourceRoot file) (joinPath sourceRoot f)))
          (((readFilesRecursive src true).filter
            (fun p =>
              if !(copyShouldFilter file) then true
              else filterFunc src (copyFilter cwd sourceRoot file) (joinPath sourceRoot p))).contains f)
          d (removeFile d f))]
    rw [lookupFile_foldl_removeIf
      (fun f =>
        isGitSkipped f ||
          !(if !(copyShouldFilter file) then true
            else filterFunc src (copyFilter cwd sourceRoot file) (joinPath sourceRoot f)) ||
          ((readFilesRecursive src true).filter
            (fun p =>
              if !(copyShouldFilter file) then true
              else filterFunc src (copyFilter cwd sourceRoot file) (joinPath sourceRoot p))).contains f)
      (readFilesRecursive dest1 true) dest1 q]
    rw [readFilesRecursive_true dest1, hd, Bool.true_and]
    exact removeIf_rem_collapse (isGitSkipped q)
      (if !(copyShouldFilter file) then true
       else filterFunc src (copyFilter cwd sourceRoot file) (joinPath sourceRoot q))
      (((readFilesRecursive src true).filter
        (fun p =>
          if !(copyShouldFilter file) then true
          else filterFunc src (copyFilter cwd sourceRoot file) (joinPath sourceRoot p))).contains q)
      dest1 q
  · rw [if_neg hd]
    simp [bool_eq_false_of_ne_true hd]

/-- Combined characterisation of `copy` when `replace` is not `false`. -/
theorem copy_lookup (render : Renderer) (cwd sourceRoot : String) (file : FileConfig)
    (isDirectory : Bool) (src dest : FS) (repo : Option RepoInfo) (q : String)
    (hrepl : file.replace ≠ some false) :
    lookupFile (copy render cwd sourceRoot file isDirectory src dest repo) q =
      if remCond cwd sourceRoot file isDirectory src q = true then none
      else optOr (writeMap render cwd sourceRoot file isDirectory src repo q)
        (lookupFile dest q) := by
  rw [copy, orphanPhase_lookup,
    copyWritePhase_lookup render cwd sourceRoot file isDirectory src dest repo q hrepl]

theorem shouldSkipDest_some_false (d : FS) (p : String) :
    shouldSkipDest (some false) d p = pathExistsIn d p := by
  simp [shouldSkipDest]

/-- A guarded-write fold never touches a path whose guard is set. -/
theorem lookupFile_foldl_skipA (A : String → Bool) (skipF : FS → String → Bool)
    (g : String → String) (l : List String) (d0 : FS) (q : String)
    (hA : A q = true) :
    lookupFile
      (l.foldl
        (fun d f => if A f then d else if skipF d f then d else setFile d f (g f))
        d0) q = lookupFile d0 q := by
  induction l generalizing d0 with
  | nil => rfl
  | cons f l ih =>
    rw [List.foldl_cons, ih]
    by_cases hf : A f = true
    · simp [hf]
    · have hqf : ¬ q = f := by
        intro h; subst h; exact hf hA
      by_cases hsk : skipF d0 f = true
      · simp [hf, hsk]
      · simp [hf, hsk, lookupFile_setFile, hqf]

theorem hasHiddenComponent_eq_false_iff (p : String) :
    hasHiddenComponent p = false ↔
      ∀ part ∈ splitOnSlash p, strStartsWith part "." = false := by
  constructor
  · intro h part hpart
    have hno : ¬ ((splitOnSlash p).any (fun part => strStartsWith part ".") = true) := by
      rw [show (splitOnSlash p).any (fun part => strStartsWith part ".") =
          hasHiddenComponent p from rfl, h]
      simp
    rw [List.any_eq_true] at hno
    by_cases hb : strStartsWith part "." = true
    · exact absurd ⟨part, hpart, hb⟩ hno
    · exact bool_eq_false_of_ne_true hb
  · intro h
    apply bool_eq_false_of_ne_true
    intro hany
    rw [show hasHiddenComponent p =
        (splitOnSlash p).any (fun part => strStartsWith part ".") from rfl,
      List.any_eq_true] at hany
    obtain ⟨part, hpart, hb⟩ := hany
    rw [h part hpart] at hb
    cases hb

/-- An absent pair of matchers constrains nothing. -/
theorem filterFunc_none (src : FS) (root q : String) :
    filterFunc src ⟨root, none, none⟩ q = true := by
  simp [filterFunc]

theorem buildMatcher_eq_none (pats : Option (List String)) (root : String)
    (h : ∀ p ∈ pats.getD [], strTrim p = "") : buildMatcher pats root = none := by
  cases pats with
  | none => rfl
  | some l =>
    cases l with
    | nil => rfl
    | cons a l =>
      have hnorm : ∀ p ∈ a :: l, normalizePattern p root = "" := by
        intro p hp
        have ht := h p (by simpa using hp)
        simp [normalizePattern, ht]
      simp only [buildMatcher]
      simp
      refine ⟨?_, ?_⟩
      · rw [hnorm a (by simp)]; rfl
      · intro x hx; rw [hnorm x (by simp [hx])]; rfl

theorem buildMatcher_isSome_of_eq_some (pats : Option (List String)) (root : String)
    (es : List String) (h : buildMatcher pats root = some es) :
    pats.isSome = true := by
  cases pats with
  | none => cases h
  | some l => rfl

/-- The filter rejects a path that matches exclude (and fails include when
include is present), provided the path neither escapes the root nor names a
source directory. -/
theorem filterFunc_eq_false (src : FS) (cf : CompiledFilter) (q : String)
    (es : List String)
    (hdd : strStartsWith (filterRelative cf.root q) ".." = false)
    (hnb : lstatIsDir src (filterRelative cf.root q) = false)
    (hexc : cf.exc = some es)
    (hem : candMatch es (filterRelative cf.root q) = true)
    (hinc : ∀ ms, cf.inc = some ms →
      candMatch ms (filterRelative cf.root q) = false) :
    filterFunc src cf q = false := by
  simp only [filterFunc]
  rw [if_neg (by simp [hdd])]
  rw [if_neg (by simp [hnb])]
  cases hi : cf.inc with
  | some ms =>
    simp [hinc ms hi, hexc, hem]
  | none =>
    simp [hexc, hem]

/-- The copy/render phase leaves a filtered-out path untouched.  The filter
is evaluated at the argument the source passes for that path: `path.join(src, q)`
for a directory rule, the rule source itself for a single-file rule. -/
theorem copyWritePhase_preserves_filtered (render : Renderer) (cwd sourceRoot : String)
    (file : FileConfig) (isDirectory : Bool) (src dest : FS)
    (repo : Option RepoInfo) (q : String)
    (hff : filterFunc src (copyFilter cwd sourceRoot file)
      (ruleFilterArg sourceRoot isDirectory q) = false)
    (hsf : copyShouldFilter file = true) :
    lookupFile (copyWritePhase render cwd sourceRoot file isDirectory src dest repo) q =
      lookupFile dest q := by
  simp only [copyWritePhase]
  cases isDirectory with
  | false =>
    have hff0 : filterFunc src (copyFilter cwd sourceRoot file) sourceRoot = false := hff
    cases htpl : file.template with
    | off =>
      simp only [templateContextOf]
      rw [if_pos (show (!false) = true from rfl)]
      by_cases hsk : shouldSkipDest file.replace dest "" = true
      · rw [if_pos hsk]
      · rw [if_neg hsk, if_pos hsf]
        simp [hff0]
    | enabled =>
      simp only [templateContextOf]
      rw [if_neg (show ¬ ((false : Bool) = true) from by simp)]
      simp [hff0]
    | withCtx ctx =>
      simp only [templateContextOf]
      rw [if_neg (show ¬ ((false : Bool) = true) from by simp)]
      simp [hff0]
  | true =>
    have hffq : filterFunc src (copyFilter cwd sourceRoot file)
        (joinPath sourceRoot q) = false := hff
    cases htpl : file.template with
    | off =>
      simp only [templateContextOf]
      rw [if_neg (show ¬ ((!true) = true) from by simp)]
      by_cases hrf : (file.replace == some false) = true
      · rw [if_pos hrf]
        exact lookupFile_foldl_skipA
          (fun f =>
            copyShouldFilter file &&
              !(filterFunc src (copyFilter cwd sourceRoot file) (joinPath sourceRoot f)))
          (fun d f => shouldSkipDest file.replace d f)
          (fun f => srcContent src f)
          (readFilesRecursive src true) dest q (by simp [hsf, hffq])
      · rw [if_neg hrf, if_pos hsf,
          lookupFile_foldl_filterOnly
            (fun f => filterFunc src (copyFilter cwd sourceRoot file) (joinPath sourceRoot f))
            (fun f => srcContent src f) (readFilesRecursive src true) dest q]
        simp [hffq]
    | enabled =>
      simp only [templateContextOf]
      rw [if_pos True.intro]
      exact lookupFile_foldl_skipA
        (fun f =>
          !(filterFunc src (copyFilter cwd sourceRoot file) (joinPath sourceRoot f)))
        (fun d f => shouldSkipDest file.replace d f)
        (fun f => render (srcContent src f) [] repo)
        (readFilesRecursive src true) dest q (by simp [hffq])
    | withCtx ctx =>
      simp only [templateContextOf]
      rw [if_pos True.intro]
      exact lookupFile_foldl_skipA
        (fun f =>
          !(filterFunc src (copyFilter cwd sourceRoot file) (joinPath sourceRoot f)))
        (fun d f => shouldSkipDest file.replace d f)
        (fun f => render (srcContent src f) ctx repo)
        (readFilesRecursive src true) dest q (by simp [hffq])

/-- With `replace: false` the copy/render phase never overwrites an
existing destination file, in every branch. -/
theorem copyWritePhase_preserve_replace_false (render : Renderer)
    (cwd sourceRoot : String) (file : FileConfig) (isDirectory : Bool)
    (src dest : FS) (repo : Option RepoInfo) (p c : String)
    (hrepl : file.replace = some false)
    (hpre : lookupFile dest p = some c) :
    lookupFile (copyWritePhase render cwd sourceRoot file isDirectory src dest repo) p =
      some c := by
  have hsk0 : shouldSkipDest file.replace dest "" = pathExistsIn dest "" := by
    rw [hrepl, shouldSkipDest_some_false]
  simp only [copyWritePhase]
  cases htpl : file.template with
  | off =>
    simp only [templateContextOf]
    cases isDirectory with
    | false =>
      rw [if_pos (show (!false) = true from rfl)]
      by_cases hsk : shouldSkipDest file.replace dest "" = true
      · rw [if_pos hsk]; exact hpre
      · have hpe : pathExistsIn dest "" = false := by
          rw [← hsk0]; exact bool_eq_false_of_ne_true hsk
        have hp0 : ¬ p = "" := by
          intro h; subst h
          rw [pathExistsIn_of_lookup dest "" c hpre] at hpe
          cases hpe
        rw [if_neg hsk]
        by_cases hsf2 : copyShouldFilter file = true
        · rw [if_pos hsf2]
          by_cases hf0 : filterFunc src (copyFilter cwd sourceRoot file) sourceRoot = true
          · rw [if_pos hf0, lookupFile_setFile]; simp [hp0, hpre]
          · rw [if_neg hf0]; exact hpre
        · rw [if_neg hsf2, lookupFile_setFile]; simp [hp0, hpre]
    | true =>
      rw [if_neg (show ¬ ((!true) = true) from by simp)]
      rw [if_pos (show (file.replace == some false) = true from by rw [hrepl]; rfl)]
      rw [foldl_step_congr
        (fun d f =>
          if (copyShouldFilter file &&
              !(filterFunc src (copyFilter cwd sourceRoot file) (joinPath sourceRoot f))) then d
          else if shouldSkipDest file.replace d f then d
          else setFile d f (srcContent src f))
        (fun d f =>
          if (copyShouldFilter file &&
              !(filterFunc src (copyFilter cwd sourceRoot file) (joinPath sourceRoot f))) then d
          else if pathExistsIn d f then d
          else setFile d f (srcContent src f))
        (readFilesRecursive src true) dest
        (by intro d f; simp only [hrepl, shouldSkipDest_some_false])]
      exact lookupFile_foldl_guardedWrite
        (fun f =>
          copyShouldFilter file && !(filterFunc src (copyFilter cwd sourceRoot file) (joinPath sourceRoot f)))
        (fun f => srcContent src f) (readFilesRecursive src true) dest p c hpre
  | enabled =>
    simp only [templateContextOf]
    cases isDirectory with
    | true =>
      rw [if_pos (show (true : Bool) = true from rfl)]
      rw [foldl_step_congr
        (fun d f =>
          if !(filterFunc src (copyFilter cwd sourceRoot file) (joinPath sourceRoot f)) then d
          else if shouldSkipDest file.replace d f then d
          else setFile d f (render (srcContent src f) [] repo))
        (fun d f =>
          if !(filterFunc src (copyFilter cwd sourceRoot file) (joinPath sourceRoot f)) then d
          else if pathExistsIn d f then d
          else setFile d f (render (srcContent src f) [] repo))
        (readFilesRecursive src true) dest
        (by intro d f; simp only [hrepl, shouldSkipDest_some_false])]
      exact lookupFile_foldl_guardedWrite
        (fun f => !(filterFunc src (copyFilter cwd sourceRoot file) (joinPath sourceRoot f)))
        (fun f => render (srcContent src f) [] repo)
        (readFilesRecursive src true) dest p c hpre
    | false =>
      rw [if_neg (show ¬ ((false : Bool) = true) from by simp)]
      by_cases hf0 : filterFunc src (copyFilter cwd sourceRoot file) sourceRoot = true
      · rw [if_pos hf0]
        by_cases hsk : shouldSkipDest file.replace dest "" = true
        · rw [if_pos hsk]; exact hpre
        · have hpe : pathExistsIn dest "" = false := by
            rw [← hsk0]; exact bool_eq_false_of_ne_true hsk
          have hp0 : ¬ p = "" := by
            intro h; subst h
            rw [pathExistsIn_of_lookup dest "" c hpre] at hpe
            cases hpe
          rw [if_neg hsk, lookupFile_setFile]; simp [hp0, hpre]
      · rw [if_neg hf0]; exact hpre
  | withCtx ctx =>
    simp only [templateContextOf]
    cases isDirectory with
    | true =>
      rw [if_pos (show (true : Bool) = true from rfl)]
      rw [foldl_step_congr
        (fun d f =>
          if !(filterFunc src (copyFilter cwd sourceRoot file) (joinPath sourceRoot f)) then d
          else if shouldSkipDest file.replace d f then d
          else setFile d f (render (srcContent src f) ctx repo))
        (fun d f =>
          if !(filterFunc src (copyFilter cwd sourceRoot file) (joinPath sourceRoot f)) then d
          else if pathExistsIn d f then d
          else setFile d f (render (srcContent src f) ctx repo))
        (readFilesRecursive src true) dest
        (by intro d f; simp only [hrepl, shouldSkipDest_some_false])]
      exact lookupFile_foldl_guardedWrite
        (fun f => !(filterFunc src (copyFilter cwd sourceRoot file) (joinPath sourceRoot f)))
        (fun f => render (srcContent src f) ctx repo)
        (readFilesRecursive src true) dest p c hpre
    | false =>
      rw [if_neg (show ¬ ((false : Bool) = true) from by simp)]
      by_cases hf0 : filterFunc src (copyFilter cwd sourceRoot file) sourceRoot = true
      · rw [if_pos hf0]
        by_cases hsk : shouldSkipDest file.replace dest "" = true
        · rw [if_pos hsk]; exact hpre
        · have hpe : pathExistsIn dest "" = false := by
            rw [← hsk0]; exact bool_eq_false_of_ne_true hsk
          have hp0 : ¬ p = "" := by
            intro h; subst h
            rw [pathExistsIn_of_lookup dest "" c hpre] at hpe
            cases hpe
          rw [if_neg hsk, lookupFile_setFile]; simp [hp0, hpre]
      · rw [if_neg hf0]; exact hpre

/-- A string that does not end in `/` loses nothing to the trailing-slash
strip. -/
theorem strDropTrailing_of_not_endsWith (s : String)
    (h : strEndsWith s "/" = false) : strDropTrailing s '/' = s := by
  unfold strEndsWith at h
  unfold strDropTrailing
  have hsuf : ("/").toList.reverse = ['/'] := by decide
  rw [hsuf] at h
  cases hrev : s.toList.reverse with
  | nil =>
    have h0 : s.toList = [] := by
      have := congrArg List.reverse hrev
      simpa using this
    cases s with
    | mk data =>
      have h0' : data = [] := h0
      simp [h0']
  | cons c rest =>
    rw [hrev] at h
    simp [List.isPrefixOf] at h
    have hc : (c == '/') = false := beq_eq_false_iff_ne.mpr (fun hh => h hh.symm)
    rw [List.dropWhile_cons]
    rw [if_neg (by simp [hc])]
    have hback : (c :: rest).reverse = s.toList := by
      rw [← hrev, List.reverse_reverse]
    rw [hback]
    cases s with
    | mk data => rfl

/-! ### Claim theorems -/

/-- C1: for a directory rule with `deleteOrphaned: true`, `template: false`,
`replace: true` and no include/exclude patterns, the destination file set
after `copy` equals the source file set, plus those pre-existing destination
paths whose first segment is `.git`. -/
theorem orphan_completeness_no_filters (render : Renderer) (cwd sourceRoot : String)
    (file : FileConfig) (src dest : FS) (repo : Option RepoInfo)
    (hdel : file.deleteOrphaned = true) (htpl : file.template = TemplateOpt.off)
    (hrepl : file.replace = some true) (hinc : file.includePats = none)
    (hexc : file.excludePats = none) :
    ∀ p, p ∈ pathsOf (copy render cwd sourceRoot file true src dest repo) ↔
      (p ∈ pathsOf src ∨ (p ∈ pathsOf dest ∧ isGitSkipped p = true)) := by
  intro p
  have hrepl' : file.replace ≠ some false := by rw [hrepl]; simp
  have hsf : copyShouldFilter file = false := by
    simp [copyShouldFilter, hinc, hexc]
  rw [← lookupFile_isSome_iff_mem,
    copy_lookup render cwd sourceRoot file true src dest repo p hrepl']
  by_cases hmem : p ∈ pathsOf src
  · simp [remCond, writeMap, templateContextOf, htpl, hsf, hdel,
      readFilesRecursive_true, List.contains, List.elem_iff, hmem, optOr]
  · by_cases hg : isGitSkipped p = true
    · simp [remCond, writeMap, templateContextOf, htpl, hsf, hdel,
        readFilesRecursive_true, List.contains, List.elem_iff, hmem, hg, optOr,
        lookupFile_isSome_iff_mem]
    · simp [remCond, writeMap, templateContextOf, htpl, hsf, hdel,
        readFilesRecursive_true, List.contains, List.elem_iff, hmem,
        bool_eq_false_of_ne_true hg, optOr]

/-- Witness for C1 on concrete trees: `keep.txt` is kept, `orphan.txt` is
removed, the pre-existing `.git/config` is retained. -/
theorem orphan_completeness_no_filters_witness :
    ("orphan.txt" ∈ pathsOf (copy rendId "/w" "s/" fcOrph true [("keep.txt", "New")]
        [("keep.txt", "Old"), ("orphan.txt", "Orphan"), (".git/config", "g")] none) ↔
      ("orphan.txt" ∈ pathsOf [("keep.txt", "New")] ∨
        ("orphan.txt" ∈ pathsOf [("keep.txt", "Old"), ("orphan.txt", "Orphan"),
          (".git/config", "g")] ∧ isGitSkipped "orphan.txt" = true))) ∧
    (".git/config" ∈ pathsOf (copy rendId "/w" "s/" fcOrph true [("keep.txt", "New")]
        [("keep.txt", "Old"), ("orphan.txt", "Orphan"), (".git/config", "g")] none) ↔
      (".git/config" ∈ pathsOf [("keep.txt", "New")] ∨
        (".git/config" ∈ pathsOf [("keep.txt", "Old"), ("orphan.txt", "Orphan"),
          (".git/config", "g")] ∧ isGitSkipped ".git/config" = true))) :=
  ⟨orphan_completeness_no_filters rendId "/w" "s/" fcOrph [("keep.txt", "New")]
      [("keep.txt", "Old"), ("orphan.txt", "Orphan"), (".git/config", "g")] none
      rfl rfl rfl rfl rfl "orphan.txt",
    orphan_completeness_no_filters rendId "/w" "s/" fcOrph [("keep.txt", "New")]
      [("keep.txt", "Old"), ("orphan.txt", "Orphan"), (".git/config", "g")] none
      rfl rfl rfl rfl rfl ".git/config"⟩

/-- C4 (as stated) is false: with `replace: false` but `deleteOrphaned:
true`, the orphan pass deletes a pre-existing destination file, so its
content is not preserved.  `fcReplDel` has `replace = some false`;
`orphan.txt` holds `"o"` before `copy` and is gone afterwards. -/
theorem replace_false_orphan_cex :
    fcReplDel.replace = some false ∧
    lookupFile [("orphan.txt", "o")] "orphan.txt" = some "o" ∧
    lookupFile (copy rendId "/w" "s/" fcReplDel true [("keep.txt", "k")]
      [("orphan.txt", "o")] none) "orphan.txt" = none := by
  refine ⟨rfl, rfl, ?_⟩
  decide

/-- C4 (amended): with `replace: false`, a pre-existing destination file is
never overwritten: it keeps its content exactly whenever `deleteOrphaned`
is off or the rule is single-file, and in general it either keeps its
content or is removed by the orphan pass — its content is never changed to
anything else.  The skip is applied per file even for directory rules. -/
theorem replace_false_no_overwrite (render : Renderer) (cwd sourceRoot : String)
    (file : FileConfig) (isDirectory : Bool) (src dest : FS)
    (repo : Option RepoInfo) (p c : String)
    (hrepl : file.replace = some false)
    (hpre : lookupFile dest p = some c) :
    ((file.deleteOrphaned = false ∨ isDirectory = false) →
      lookupFile (copy render cwd sourceRoot file isDirectory src dest repo) p = some c) ∧
    (lookupFile (copy render cwd sourceRoot file isDirectory src dest repo) p = some c ∨
      lookupFile (copy render cwd sourceRoot file isDirectory src dest repo) p = none) := by
  have hwp := copyWritePhase_preserve_replace_false render cwd sourceRoot file
    isDirectory src dest repo p c hrepl hpre
  constructor
  · intro h
    have hflag : (isDirectory && file.deleteOrphaned) = false := by
      rcases h with h | h <;> simp [h]
    rw [copy, orphanPhase_lookup]
    have hrc : remCond cwd sourceRoot file isDirectory src p = false := by
      simp [remCond, hflag]
    simp [hrc, hwp]
  · rw [copy, orphanPhase_lookup]
    by_cases hrc : remCond cwd sourceRoot file isDirectory src p = true
    · right; rw [if_pos hrc]
    · left; rw [if_neg hrc]; exact hwp

/-- Witness for the amended C4: Scenario E of the spec, with
`existing.txt` kept at `"Original"` while `new.txt` is newly written. -/
theorem replace_false_no_overwrite_witness :
    lookupFile (copy rendId "/w" "s/" fcRepl true
      [("existing.txt", "New"), ("new.txt", "Brand new")]
      [("existing.txt", "Original")] none) "existing.txt" = some "Original" :=
  (replace_false_no_overwrite rendId "/w" "s/" fcRepl true
    [("existing.txt", "New"), ("new.txt", "Brand new")]
    [("existing.txt", "Original")] none "existing.txt" "Original" rfl rfl).1
    (Or.inl rfl)

/-- C5: with `replace: true`, `copy` is idempotent: a second run over the
first run's output yields the same destination tree (same file set and
contents, expressed by path-wise lookup). -/
theorem copy_idempotent_replace_true (render : Renderer) (cwd sourceRoot : String)
    (file : FileConfig) (isDirectory : Bool) (src dest : FS)
    (repo : Option RepoInfo) (hrepl : file.replace = some true) :
    ∀ q, lookupFile (copy render cwd sourceRoot file isDirectory src
        (copy render cwd sourceRoot file isDirectory src dest repo) repo) q =
      lookupFile (copy render cwd sourceRoot file isDirectory src dest repo) q := by
  intro q
  have h : file.replace ≠ some false := by rw [hrepl]; simp
  rw [copy_lookup render cwd sourceRoot file isDirectory src
      (copy render cwd sourceRoot file isDirectory src dest repo) repo q h,
    copy_lookup render cwd sourceRoot file isDirectory src dest repo q h]
  by_cases hrc : remCond cwd sourceRoot file isDirectory src q = true
  · simp [hrc]
  · simp only [if_neg hrc]
    cases hwm : writeMap render cwd sourceRoot file isDirectory src repo q with
    | some x => simp [optOr]
    | none => simp [optOr]

/-- Witness for C5 on Scenario A shaped trees. -/
theorem copy_idempotent_replace_true_witness :
    lookupFile (copy rendId "/w" "s/" fcOrph true [("keep.txt", "New")]
      (copy rendId "/w" "s/" fcOrph true [("keep.txt", "New")]
        [("keep.txt", "Old"), ("orphan.txt", "Orphan")] none) none) "orphan.txt" =
    lookupFile (copy rendId "/w" "s/" fcOrph true [("keep.txt", "New")]
      [("keep.txt", "Old"), ("orphan.txt", "Orphan")] none) "orphan.txt" :=
  copy_idempotent_replace_true rendId "/w" "s/" fcOrph true [("keep.txt", "New")]
    [("keep.txt", "Old"), ("orphan.txt", "Orphan")] none rfl "orphan.txt"

/-- C3 (as stated) is false: only destination paths whose first segment is
`.git` are protected.  The path `a/.git/config` contains a `.git` segment
at depth, exists in the destination before `copy`, has no source
counterpart, and is removed by orphan reconciliation. -/
theorem git_segment_depth_cex :
    (splitOnSlash "a/.git/config").contains ".git" = true ∧
    lookupFile [("a/.git/config", "c")] "a/.git/config" = some "c" ∧
    lookupFile (copy rendId "/w" "s/" fcOrph true [("keep.txt", "k")]
      [("a/.git/config", "c")] none) "a/.git/config" = none := by
  refine ⟨by decide, rfl, by decide⟩

/-- C3 (amended): only destination paths whose first path segment is `.git`
(the path `.git` itself or paths under `.git/`) are unconditionally ignored
by orphan reconciliation, regardless of include/exclude configuration and
of whether a corresponding source file exists: at such paths `copy` agrees
with the same rule run with `deleteOrphaned` off.  Deeper `.git` segments
are not protected. -/
theorem git_first_segment_preserved (render : Renderer) (cwd sourceRoot : String)
    (file : FileConfig) (isDirectory : Bool) (src dest : FS)
    (repo : Option RepoInfo) (q : String) (hgit : isGitSkipped q = true) :
    lookupFile (copy render cwd sourceRoot file isDirectory src dest repo) q =
      lookupFile (copy render cwd sourceRoot { file with deleteOrphaned := false }
        isDirectory src dest repo) q := by
  have hwp : copyWritePhase render cwd sourceRoot { file with deleteOrphaned := false }
      isDirectory src dest repo =
      copyWritePhase render cwd sourceRoot file isDirectory src dest repo := rfl
  rw [copy, copy, hwp, orphanPhase_lookup, orphanPhase_lookup]
  have h1 : remCond cwd sourceRoot file isDirectory src q = false := by
    simp [remCond, hgit]
  have h2 : remCond cwd sourceRoot { file with deleteOrphaned := false }
      isDirectory src q = false := by
    simp [remCond, hgit]
  simp [h1, h2]

/-- Witness for the amended C3 at the protected path `.git/config`. -/
theorem git_first_segment_preserved_witness :
    lookupFile (copy rendId "/w" "s/" fcOrph true [("keep.txt", "k")]
      [(".git/config", "c")] none) ".git/config" =
      lookupFile (copy rendId "/w" "s/" { fcOrph with deleteOrphaned := false } true
        [("keep.txt", "k")] [(".git/config", "c")] none) ".git/config" :=
  git_first_segment_preserved rendId "/w" "s/" fcOrph true [("keep.txt", "k")]
    [(".git/config", "c")] none ".git/config" (by decide)

/-- C2 (as stated) is false: with the absolute rule source `/w/s/` the
destination file `alpha` matches the exclude pattern `alpha`, include is
absent, and `alpha` is absent from the source tree as a file — yet orphan
reconciliation deletes it, because the filter's computed relative path is
`alpha`, a source directory of that name exists, and the filter treats
source directories as unconditionally in scope (helpers.ts 233-239). -/
theorem exclude_scope_deletion_cex :
    (copyFilter "/w" "/w/s/" fcScope).exc = some ["alpha", "data.bin"] ∧
    candMatch ["alpha", "data.bin"]
      (filterRelative (copyFilter "/w" "/w/s/" fcScope).root
        (joinPath "/w/s/" "alpha")) = true ∧
    (copyFilter "/w" "/w/s/" fcScope).inc = none ∧
    lookupFile [("alpha/data.bin", "d")] "alpha" = none ∧
    lookupFile [("alpha", "keep")] "alpha" = some "keep" ∧
    lookupFile (copy rendId "/w" "/w/s/" fcScope true [("alpha/data.bin", "d")]
      [("alpha", "keep")] none) "alpha" = none := by
  refine ⟨by decide, by decide, by decide, rfl, rfl, by decide⟩

/-- C2 (amended): for every rule and every destination path `q`, consider
the path string the engine hands the filter for `q` — `path.join(src, q)`
for a directory rule, the rule source itself for a single-file rule — and
the relative path the filter computes from it against the resolved root.
Whenever the candidates of that relative path match a compiled exclude
pattern (and, when include is given, fail include), `copy` neither writes
nor deletes `q`: its destination entry is exactly preserved — provided the
filter actually applies: the computed relative path must not begin with
`..` and must not name a directory of the source tree (both are treated
as unconditionally in scope by the filter and are not protected). -/
theorem exclude_scope_preservation (render : Renderer) (cwd sourceRoot : String)
    (file : FileConfig) (isDirectory : Bool) (src dest : FS)
    (repo : Option RepoInfo) (q : String) (es : List String)
    (hexc : (copyFilter cwd sourceRoot file).exc = some es)
    (hem : candMatch es
      (filterRelative (copyFilter cwd sourceRoot file).root
        (ruleFilterArg sourceRoot isDirectory q)) = true)
    (hinc : ∀ ms, (copyFilter cwd sourceRoot file).inc = some ms →
      candMatch ms
        (filterRelative (copyFilter cwd sourceRoot file).root
          (ruleFilterArg sourceRoot isDirectory q)) = false)
    (hdd : strStartsWith
      (filterRelative (copyFilter cwd sourceRoot file).root
        (ruleFilterArg sourceRoot isDirectory q)) ".." = false)
    (hnb : lstatIsDir src
      (filterRelative (copyFilter cwd sourceRoot file).root
        (ruleFilterArg sourceRoot isDirectory q)) = false) :
    lookupFile (copy render cwd sourceRoot file isDirectory src dest repo) q =
      lookupFile dest q := by
  have hff : filterFunc src (copyFilter cwd sourceRoot file)
      (ruleFilterArg sourceRoot isDirectory q) = false :=
    filterFunc_eq_false src _ _ es hdd hnb hexc hem hinc
  have hsf : copyShouldFilter file = true := by
    have hb : buildMatcher file.excludePats (resolvePath cwd sourceRoot) = some es := by
      simpa [copyFilter, createFilterFunc] using hexc
    have hex := buildMatcher_isSome_of_eq_some _ _ _ hb
    simp [copyShouldFilter, hex]
  have hwp := copyWritePhase_preserves_filtered render cwd sourceRoot file
    isDirectory src dest repo q hff hsf
  rw [copy, orphanPhase_lookup]
  have hrc : remCond cwd sourceRoot file isDirectory src q = false := by
    cases isDirectory with
    | false => simp [remCond]
    | true =>
      have hff' : filterFunc src (copyFilter cwd sourceRoot file)
          (joinPath sourceRoot q) = false := hff
      simp [remCond, hsf, hff']
  simp [hrc, hwp]

/-- Witness for the amended C2, in the relative-source mode `input.ts`
uses: the filter receives `s/debug.log`, whose basename candidate matches
the exclude `*.log`; the file is absent from the source and keeps its
destination entry. -/
theorem exclude_scope_preservation_witness :
    lookupFile (copy rendId "/w" "s/" fcLog true [("keep.txt", "k")]
      [("debug.log", "old")] none) "debug.log" =
      lookupFile [("debug.log", "old")] "debug.log" :=
  exclude_scope_preservation rendId "/w" "s/" fcLog true [("keep.txt", "k")]
    [("debug.log", "old")] none "debug.log" ["*.log"] (by decide) (by decide)
    (by
      intro ms h
      have hn : (copyFilter "/w" "s/" fcLog).inc = none := by decide
      rw [hn] at h
      cases h)
    (by decide) (by decide)

/-- C10 (as stated) is false: with the relative source path `s/notes.txt`
that `input.ts` hands `copy`, the filter's computed relative path is the
as-given string itself (`path.relative(root, path.join(root, src)) = src`,
helpers.ts 223-224), so its basename candidate `notes.txt` matches the
include `**/*.txt` and the single file IS written. -/
theorem single_file_include_relative_cex :
    fcInc.includePats = some ["**/*.txt"] ∧
    isAbsolutePath "s/notes.txt" = false ∧
    lookupFile (copy rendId "/w" "s/notes.txt" fcInc false [("", "body")] [] none)
      "" = some "body" := by
  refine ⟨rfl, by decide, by decide⟩

/-- C10 (amended): for a single-file rule whose source path is absolute
(posix-clean, no trailing slash) and whose non-empty compiled include
patterns all fail against the empty candidate string, `copy` writes
nothing at all: the filter tests the source file against the empty
root-relative path (`path.relative(root, src) = ''`) rather than its
filename, in both the templated and the plain single-file branches.  With
a relative source path the filter instead receives the source string
itself and its basename can match — see the counterexample. -/
theorem single_file_include_never_writes (render : Renderer)
    (cwd sourceRoot : String) (file : FileConfig) (src dest : FS)
    (repo : Option RepoInfo) (ms : List String)
    (habs : isAbsolutePath sourceRoot = true)
    (hpos : toPosix sourceRoot = sourceRoot)
    (hnsl : strEndsWith sourceRoot "/" = false)
    (hinc : (copyFilter cwd sourceRoot file).inc = some ms)
    (hm : candMatch ms "" = false)
    (hb : isDirIn src "" = false) :
    copy render cwd sourceRoot file false src dest repo = dest := by
  have hroot : (copyFilter cwd sourceRoot file).root = sourceRoot := by
    show resolvePath cwd sourceRoot = sourceRoot
    rw [resolvePath, if_pos habs, hpos]
    exact strDropTrailing_of_not_endsWith sourceRoot hnsl
  have hrel : filterRelative (copyFilter cwd sourceRoot file).root sourceRoot = "" := by
    rw [hroot]
    simp [filterRelative, habs, relativeToRoot, toPosix]
  have h1 : strStartsWith "" ".." = false := by decide
  have hff : filterFunc src (copyFilter cwd sourceRoot file) sourceRoot = false := by
    simp only [filterFunc, hrel]
    simp [hinc, hm, lstatIsDir, hb, h1]
  have hsf : copyShouldFilter file = true := by
    have hbm : buildMatcher file.includePats (resolvePath cwd sourceRoot) = some ms := by
      simpa [copyFilter, createFilterFunc] using hinc
    have hx := buildMatcher_isSome_of_eq_some _ _ _ hbm
    simp [copyShouldFilter, hx]
  rw [copy]
  have horph : orphanPhase cwd sourceRoot file false src
      (copyWritePhase render cwd sourceRoot file false src dest repo) =
      copyWritePhase render cwd sourceRoot file false src dest repo := by
    simp [orphanPhase]
  rw [horph]
  simp only [copyWritePhase]
  cases htpl : file.template with
  | off =>
    simp only [templateContextOf]
    rw [if_pos (show (!false) = true from rfl)]
    by_cases hsk : shouldSkipDest file.replace dest "" = true
    · rw [if_pos hsk]
    · rw [if_neg hsk, if_pos hsf]
      simp [hff]
  | enabled =>
    simp only [templateContextOf]
    rw [if_neg (show ¬ ((false : Bool) = true) from by simp)]
    simp [hff]
  | withCtx ctx =>
    simp only [templateContextOf]
    rw [if_neg (show ¬ ((false : Bool) = true) from by simp)]
    simp [hff]

/-- Witness for the amended C10: with the absolute source `/w/notes.txt`
the include `**/*.txt` never matches the empty candidate, so the single
source file is not copied even though its own name could match the
pattern. -/
theorem single_file_include_never_writes_witness :
    copy rendId "/w" "/w/notes.txt" fcInc false [("", "body")] [] none = [] :=
  single_file_include_never_writes rendId "/w" "/w/notes.txt" fcInc [("", "body")]
    [] none ["**/*.txt"] (by decide) (by decide) (by decide) (by decide)
    (by decide) (by decide)

/-- C6: when the source path of a rule does not exist, `processFile` with
`deleteOrphaned` unset logs a warning and leaves the destination untouched
without raising an error; with `deleteOrphaned` set and an existing
destination, the destination entry is removed instead of reporting an
error. -/
theorem missing_source_handling (render : Renderer) (cwd : String) (file : FileConfig)
    (dest : FS) (repo : Option RepoInfo) :
    (file.deleteOrphaned = false →
      processFile render cwd file none dest repo = (SyncOutcome.warned, dest)) ∧
    (file.deleteOrphaned = true → dest ≠ [] →
      processFile render cwd file none dest repo = (SyncOutcome.removedOrphan, [])) := by
  constructor
  · intro h
    simp [processFile, h]
  · intro h hne
    simp [processFile, h, gitRemoveDest, hne]

/-- Witness for C6 at concrete rules and a one-file destination. -/
theorem missing_source_handling_witness :
    processFile rendId "/w" fcWarn none [("x", "y")] none = (SyncOutcome.warned, [("x", "y")]) ∧
    processFile rendId "/w" fcDel none [("x", "y")] none = (SyncOutcome.removedOrphan, []) :=
  ⟨(missing_source_handling rendId "/w" fcWarn [("x", "y")] none).1 rfl,
    (missing_source_handling rendId "/w" fcDel [("x", "y")] none).2 rfl (by decide)⟩

/-- C8: for a compiled non-empty pattern list and a non-empty candidate
path, the filter's match test holds iff some pattern matches the full
root-relative path or the bare filename. -/
theorem matcher_candidates_disjunction (ms : List String) (relative : String)
    (hms : ms ≠ []) (hrel : relative ≠ "") :
    candMatch ms relative = true ↔
      ∃ pat ∈ ms, (matchGlob pat relative = true ∨
        matchGlob pat (posixBasename relative) = true) := by
  have hbne : (relative != "") = true := bne_iff_ne.mpr hrel
  simp only [candMatch, candidatesFor, hbne, matcherMatches]
  simp [List.any_eq_true]
  constructor
  · rintro (⟨m, hm, hg⟩ | ⟨m, hm, hg⟩)
    · exact ⟨m, hm, Or.inl hg⟩
    · exact ⟨m, hm, Or.inr hg⟩
  · rintro ⟨m, hm, hg | hg⟩
    · exact Or.inl ⟨m, hm, hg⟩
    · exact Or.inr ⟨m, hm, hg⟩

/-- Witness for C8 with the pattern list `["*.txt"]` and path `a/b.txt`. -/
theorem matcher_candidates_disjunction_witness :
    candMatch ["*.txt"] "a/b.txt" = true ↔
      ∃ pat ∈ ["*.txt"], (matchGlob pat "a/b.txt" = true ∨
        matchGlob pat (posixBasename "a/b.txt") = true) :=
  matcher_candidates_disjunction ["*.txt"] "a/b.txt" (by decide) (by decide)

/-- C9: the scanner lists a file iff, when `includeHidden` is false, none
of its path components starts with a dot; with `includeHidden` true every
file of the tree is listed. -/
theorem scanner_hidden_components (tree : FS) (includeHidden : Bool) (p : String) :
    p ∈ readFilesRecursive tree includeHidden ↔
      p ∈ pathsOf tree ∧
        (includeHidden = true ∨
          ∀ part ∈ splitOnSlash p, strStartsWith part "." = false) := by
  cases includeHidden
  · simp only [readFilesRecursive, List.mem_filter, Bool.false_or]
    constructor
    · rintro ⟨hm, hc⟩
      refine ⟨hm, Or.inr ?_⟩
      have hh : hasHiddenComponent p = false := by
        revert hc; cases hh : hasHiddenComponent p <;> simp
      exact (hasHiddenComponent_eq_false_iff p).mp hh
    · rintro ⟨hm, h | h⟩
      · cases h
      · refine ⟨hm, ?_⟩
        rw [(hasHiddenComponent_eq_false_iff p).mpr h]
        rfl
  · simp [readFilesRecursive]

/-- C7: an include or exclude list whose entries are all empty or
whitespace-only after trimming compiles to an absent matcher, and `copy`
behaves exactly as if no patterns had been given. -/
theorem whitespace_patterns_no_constraint (render : Renderer)
    (cwd sourceRoot : String) (file : FileConfig) (isDirectory : Bool)
    (src dest : FS) (repo : Option RepoInfo)
    (hinc : ∀ p ∈ file.includePats.getD [], strTrim p = "")
    (hexc : ∀ p ∈ file.excludePats.getD [], strTrim p = "") :
    buildMatcher file.includePats (resolvePath cwd sourceRoot) = none ∧
    buildMatcher file.excludePats (resolvePath cwd sourceRoot) = none ∧
    copy render cwd sourceRoot file isDirectory src dest repo =
      copy render cwd sourceRoot
        { file with includePats := none, excludePats := none }
        isDirectory src dest repo := by
  have hbi := buildMatcher_eq_none file.includePats (resolvePath cwd sourceRoot) hinc
  have hbe := buildMatcher_eq_none file.excludePats (resolvePath cwd sourceRoot) hexc
  refine ⟨hbi, hbe, ?_⟩
  have e1 : ({ file with includePats := none, excludePats := none } :
      FileConfig).deleteOrphaned = file.deleteOrphaned := rfl
  have e2 : ({ file with includePats := none, excludePats := none } :
      FileConfig).replace = file.replace := rfl
  have e3 : ({ file with includePats := none, excludePats := none } :
      FileConfig).template = file.template := rfl
  have hcf : copyFilter cwd sourceRoot file =
      CompiledFilter.mk (resolvePath cwd sourceRoot) none none := by
    simp [copyFilter, createFilterFunc, hbi, hbe]
  have hff : ∀ p, filterFunc src (copyFilter cwd sourceRoot file) p = true := by
    intro p; rw [hcf]; exact filterFunc_none src (resolvePath cwd sourceRoot) p
  have hffAny : ∀ (fc : FileConfig) (p : String), fc.includePats = none →
      fc.excludePats = none → filterFunc src (copyFilter cwd sourceRoot fc) p = true := by
    intro fc p h1 h2
    have hc : copyFilter cwd sourceRoot fc =
        CompiledFilter.mk (resolvePath cwd sourceRoot) none none := by
      simp [copyFilter, createFilterFunc, h1, h2, buildMatcher]
    rw [hc]; exact filterFunc_none src (resolvePath cwd sourceRoot) p
  have hsfAny : ∀ fc : FileConfig, fc.includePats = none →
      fc.excludePats = none → copyShouldFilter fc = false := by
    intro fc h1 h2
    simp [copyShouldFilter, h1, h2]
  have hwrite : copyWritePhase render cwd sourceRoot file isDirectory src dest repo =
      copyWritePhase render cwd sourceRoot
        { file with includePats := none, excludePats := none }
        isDirectory src dest repo := by
    simp only [copyWritePhase, e2, e3]
    cases htpl : file.template with
    | off =>
      simp only [templateContextOf]
      cases isDirectory with
      | false =>
        rw [if_pos (show (!false) = true from rfl),
          if_pos (show (!false) = true from rfl)]
        by_cases hsk : shouldSkipDest file.replace dest "" = true
        · rw [if_pos hsk, if_pos hsk]
        · rw [if_neg hsk, if_neg hsk]
          by_cases hsf1 : copyShouldFilter file = true
          · rw [if_pos hsf1, if_pos (by simp [hff]), if_neg (by simp [hsfAny])]
          · rw [if_neg hsf1, if_neg (by simp [hsfAny])]
      | true =>
        rw [if_neg (show ¬ ((!true) = true) from by simp),
          if_neg (show ¬ ((!true) = true) from by simp)]
        by_cases hrf : (file.replace == some false) = true
        · rw [if_pos hrf, if_pos hrf]
          apply foldl_step_congr
          intro d f
          simp [hff, hffAny, hsfAny]
        · rw [if_neg hrf, if_neg hrf]
          by_cases hsf1 : copyShouldFilter file = true
          · rw [if_pos hsf1, if_neg (by simp [hsfAny])]
            apply foldl_step_congr
            intro d f
            simp [hff]
          · rw [if_neg hsf1, if_neg (by simp [hsfAny])]
    | enabled =>
      simp only [templateContextOf]
      cases isDirectory with
      | true =>
        rw [if_pos (show (true : Bool) = true from rfl),
          if_pos (show (true : Bool) = true from rfl)]
        apply foldl_step_congr
        intro d f
        simp [hff, hffAny]
      | false =>
        rw [if_neg (show ¬ ((false : Bool) = true) from by simp),
          if_neg (show ¬ ((false : Bool) = true) from by simp)]
        simp [hff, hffAny]
    | withCtx ctx =>
      simp only [templateContextOf]
      cases isDirectory with
      | true =>
        rw [if_pos (show (true : Bool) = true from rfl),
          if_pos (show (true : Bool) = true from rfl)]
        apply foldl_step_congr
        intro d f
        simp [hff, hffAny]
      | false =>
        rw [if_neg (show ¬ ((false : Bool) = true) from by simp),
          if_neg (show ¬ ((false : Bool) = true) from by simp)]
        simp [hff, hffAny]
  have horph : ∀ d1, orphanPhase cwd sourceRoot file isDirectory src d1 =
      orphanPhase cwd sourceRoot
        { file with includePats := none, excludePats := none }
        isDirectory src d1 := by
    intro d1
    simp only [orphanPhase, e1]
    by_cases hd : (isDirectory && file.deleteOrphaned) = true
    · rw [if_pos hd, if_pos hd]
      apply foldl_step_congr
      intro d f
      by_cases hsf1 : copyShouldFilter file = true
      · simp [hsf1, hsfAny, hff, hffAny]
      · simp [bool_eq_false_of_ne_true hsf1, hsfAny, hff, hffAny]
    · rw [if_neg hd, if_neg hd]
  rw [copy, copy, hwrite, horph]

/-- Witness for C7: a rule whose include list is `[" ", ""]` and exclude
list is a single tab entry behaves like the unfiltered rule. -/
theorem whitespace_patterns_no_constraint_witness :
    buildMatcher fcWs.includePats (resolvePath "/w" "s/") = none ∧
    buildMatcher fcWs.excludePats (resolvePath "/w" "s/") = none ∧
    copy rendId "/w" "s/" fcWs true [("keep.txt", "k")] [("orphan.txt", "o")] none =
      copy rendId "/w" "s/" { fcWs with includePats := none, excludePats := none }
        true [("keep.txt", "k")] [("orphan.txt", "o")] none :=
  whitespace_patterns_no_constraint rendId "/w" "s/" fcWs true [("keep.txt", "k")]
    [("orphan.txt", "o")] none (by decide) (by decide)

end RepoFilesSync
